import Mathlib

/-!
Shallow embedding of the BeRTOS AFSK1200 modem core (`src/bertos/net/afsk.c`)
and verification of the frozen claims about it.

Machine integers are modelled as `Nat` (unsigned) or `Int` (signed) with
explicit truncation (`% 2^w`) exactly where the C code's fixed-width
arithmetic can wrap; guarded decrements that the code only executes on
nonzero values are modelled with `Nat` subtraction, which agrees with the
C semantics on every representable value satisfying the guard.
-/

namespace Afsk

/-- Modelled from the spec: value of the `HDLC_FLAG` frame delimiter byte
(defined in `hdlc.h`, which is not part of the sources). -/
def HDLC_FLAG : Nat := 0x7E

/-- Modelled from the spec: value of the `HDLC_RESET` abort byte
(defined in `hdlc.h`, which is not part of the sources). -/
def HDLC_RESET : Nat := 0x7F

/-- Modelled from the spec: value of the `AX25_ESC` literal-escape byte
(defined in `ax25.h`, which is not part of the sources). -/
def AX25_ESC : Nat := 0x1B

/-- Modelled from the spec: the `DIV_ROUND` macro (from `cfg/macros.h`,
not part of the sources); the spec describes it as rounding to the
nearest integer, `round(n / d)`. -/
def div_round (n d : Nat) : Nat := (n + d / 2) / d

/-- Bounded byte FIFO (`struct/fifobuf.h` interface as used by the modem:
the code always guards `fifo_push` with `fifo_isfull`, so only the
guarded behaviour matters). -/
structure Fifo where
  items : List Nat
  cap : Nat
deriving DecidableEq, Repr

def Fifo.isEmpty (f : Fifo) : Bool := f.items.isEmpty

def Fifo.isFull (f : Fifo) : Bool := f.cap ≤ f.items.length

def Fifo.push (f : Fifo) (b : Nat) : Fifo := { f with items := f.items ++ [b] }

def Fifo.pop (f : Fifo) : Nat × Fifo := (f.items.headD 0, { f with items := f.items.tail })

/-- Quarter-wave sine table (`sin_table[]`, 128 entries, copied from the source). -/
def sin_table : List Nat :=
  [128, 129, 131, 132, 134, 135, 137, 138, 140, 142, 143, 145, 146, 148, 149, 151,
   152, 154, 155, 157, 158, 160, 162, 163, 165, 166, 167, 169, 170, 172, 173, 175,
   176, 178, 179, 181, 182, 183, 185, 186, 188, 189, 190, 192, 193, 194, 196, 197,
   198, 200, 201, 202, 203, 205, 206, 207, 208, 210, 211, 212, 213, 214, 215, 217,
   218, 219, 220, 221, 222, 223, 224, 225, 226, 227, 228, 229, 230, 231, 232, 233,
   234, 234, 235, 236, 237, 238, 238, 239, 240, 241, 241, 242, 243, 243, 244, 245,
   245, 246, 246, 247, 248, 248, 249, 249, 250, 250, 250, 251, 251, 252, 252, 252,
   253, 253, 253, 253, 254, 254, 254, 254, 254, 255, 255, 255, 255, 255, 255, 255]

/-- Index folding performed inside `sin_sample`: `new_idx = idx % 256`,
then reflect across index 127 when in the second quadrant. -/
def sin_new_idx (idx : Nat) : Nat :=
  let n := idx % 256
  if 128 ≤ n then 256 - n - 1 else n

/-- The `sin_sample` function; `none` models a violation of its
`ASSERT(idx < SIN_LEN)`. -/
def sin_sample (idx : Nat) : Option Nat :=
  if idx < 512 then
    some (if 256 ≤ idx then 255 - sin_table.getD (sin_new_idx idx) 0
          else sin_table.getD (sin_new_idx idx) 0)
  else none

/-- HDLC deframer state: `demod_bits`, `hdlc_rxstart`, `hdlc_currchar`,
`hdlc_bit_idx` and the RX FIFO they feed. -/
structure HdlcState where
  demod_bits : Nat
  rxstart : Bool
  currchar : Nat
  bit_idx : Nat
  rx_fifo : Fifo
deriving DecidableEq, Repr

/-- The `hdlc_parse` function, one NRZI-decoded bit per call. -/
def hdlc_parse (s : HdlcState) (bit : Bool) : HdlcState :=
  let d := (s.demod_bits * 2) % 256 ||| (if bit then 1 else 0)
  let s := { s with demod_bits := d }
  if d = HDLC_FLAG then
    if s.rx_fifo.isFull = false then
      { s with rx_fifo := s.rx_fifo.push HDLC_FLAG, rxstart := true,
               currchar := 0, bit_idx := 0 }
    else
      { s with rxstart := false, currchar := 0, bit_idx := 0 }
  else if d &&& HDLC_RESET = HDLC_RESET then
    { s with rxstart := false }
  else if s.rxstart = false then
    s
  else if d &&& 0x3F = 0x3E then
    s
  else
    let c := if d &&& 1 = 1 then s.currchar ||| 0x80 else s.currchar
    if 8 ≤ (s.bit_idx + 1) % 256 then
      let s1 :=
        if c = HDLC_FLAG ∨ c = HDLC_RESET ∨ c = AX25_ESC then
          if s.rx_fifo.isFull = false then { s with rx_fifo := s.rx_fifo.push AX25_ESC }
          else { s with rxstart := false }
        else s
      let s2 :=
        if s1.rx_fifo.isFull = false then { s1 with rx_fifo := s1.rx_fifo.push c }
        else { s1 with rxstart := false }
      { s2 with currchar := 0, bit_idx := 0 }
    else
      { s with currchar := c >>> 1, bit_idx := (s.bit_idx + 1) % 256 }

/-- Compile-time configuration of the modem (`cfg_afsk.h` values that the
source reads; only the ones the transmit path needs). -/
structure AfskCfg where
  dacRate : Nat
  preambleMs : Nat
  trailerMs : Nat
deriving DecidableEq, Repr

/-- The `MARK_INC` constant: `(uint16_t)DIV_ROUND(SIN_LEN * MARK_FREQ, CONFIG_AFSK_DAC_SAMPLERATE)`. -/
def markInc (c : AfskCfg) : Nat := div_round (512 * 1200) c.dacRate % 65536

/-- The `SPACE_INC` constant: `(uint16_t)DIV_ROUND(SIN_LEN * SPACE_FREQ, CONFIG_AFSK_DAC_SAMPLERATE)`. -/
def spaceInc (c : AfskCfg) : Nat := div_round (512 * 2200) c.dacRate % 65536

/-- The `DAC_SAMPLEPERBIT` constant: `CONFIG_AFSK_DAC_SAMPLERATE / BITRATE`. -/
def dacSamplePerBit (c : AfskCfg) : Nat := c.dacRate / 1200

/-- The `SWITCH_TONE` macro. -/
def switch_tone (c : AfskCfg) (inc : Nat) : Nat :=
  if inc = markInc c then spaceInc c else markInc c

/-- Transmit-side state: DDS accumulator, bit-level FSM registers, the TX
FIFO, the preamble/trailer counters, the `sending` flag and whether the
DAC interrupt is currently enabled. -/
structure TxState where
  sample_count : Nat
  curr_out : Nat
  tx_bit : Nat
  bit_stuff : Bool
  stuff_cnt : Nat
  phase_acc : Nat
  phase_inc : Nat
  tx_fifo : Fifo
  preamble_len : Nat
  trailer_len : Nat
  sending : Bool
  dacIrq : Bool
deriving DecidableEq, Repr

/-- Effect of `AFSK_DAC_IRQ_STOP(); sending = false;` in the DAC ISR. -/
def txStop (s : TxState) : TxState := { s with sending := false, dacIrq := false }

/-- Escape-handling tail of the byte-acquisition block of the DAC ISR
(`if (curr_out == AX25_ESC) ... else if (curr_out == HDLC_FLAG || ...)`,
followed by `tx_bit = 0x01`): `.error e` means the ISR returns
immediately with state `e` (aborted transmission). -/
def dac_escape (s : TxState) : Except TxState TxState :=
  if s.curr_out = AX25_ESC then
    if s.tx_fifo.isEmpty = true then
      .error (txStop s)
    else
      .ok { s with curr_out := s.tx_fifo.pop.1, tx_fifo := s.tx_fifo.pop.2, tx_bit := 1 }
  else if s.curr_out = HDLC_FLAG ∨ s.curr_out = HDLC_RESET then
    .ok { s with bit_stuff := false, tx_bit := 1 }
  else
    .ok { s with tx_bit := 1 }

/-- Byte-acquisition step of the DAC ISR (the `tx_bit == 0` block):
`.error e` means the ISR returns immediately with state `e` (transmission
over or aborted), `.ok` carries the state ready for bit emission. -/
def dac_fetch (s : TxState) : Except TxState TxState :=
  if s.tx_fifo.isEmpty = true ∧ s.trailer_len = 0 then
    .error (txStop s)
  else
    let n := if s.bit_stuff = false then 0 else s.stuff_cnt
    if s.preamble_len = 0 then
      if s.tx_fifo.isEmpty = true then
        dac_escape { s with stuff_cnt := n, bit_stuff := true,
                            trailer_len := s.trailer_len - 1, curr_out := HDLC_FLAG }
      else
        dac_escape { s with stuff_cnt := n, bit_stuff := true,
                            curr_out := s.tx_fifo.pop.1, tx_fifo := s.tx_fifo.pop.2 }
    else
      dac_escape { s with stuff_cnt := n, bit_stuff := true,
                          preamble_len := s.preamble_len - 1, curr_out := HDLC_FLAG }

/-- Bit-emission step of the DAC ISR at a bit boundary: bit stuffing and
NRZI tone selection. -/
def dac_emit_bit (c : AfskCfg) (s : TxState) : TxState :=
  if s.bit_stuff = true ∧ 5 ≤ s.stuff_cnt then
    { s with stuff_cnt := 0, phase_inc := switch_tone c s.phase_inc }
  else
    let s :=
      if s.curr_out &&& s.tx_bit ≠ 0 then
        { s with stuff_cnt := (s.stuff_cnt + 1) % 256 }
      else
        { s with stuff_cnt := 0, phase_inc := switch_tone c s.phase_inc }
    { s with tx_bit := s.tx_bit * 2 % 256 }

/-- Tail of the DAC ISR: advance the DDS accumulator, emit a sample
(`AFSK_SET_DAC(sin_sample(phase_acc))`), decrement `sample_count`. -/
def dds_out (s : TxState) : TxState × Option (Option Nat) :=
  let pa := (s.phase_acc + s.phase_inc) % 65536 % 512
  ({ s with phase_acc := pa, sample_count := (s.sample_count + 255) % 256 },
   some (sin_sample pa))

/-- One invocation of the DAC ISR (`DEFINE_AFSK_DAC_ISR`). The second
component is the sample handed to `AFSK_SET_DAC`: `none` when the ISR
returns early without emitting, `some r` when it emits `sin_sample`
result `r` (`r = none` would mean the `ASSERT` inside `sin_sample` fired). -/
def dac_tick (c : AfskCfg) (s : TxState) : TxState × Option (Option Nat) :=
  if s.sample_count = 0 then
    match (if s.tx_bit = 0 then dac_fetch s else .ok s) with
    | .error e => (e, none)
    | .ok s1 =>
      let s2 := dac_emit_bit c s1
      dds_out { s2 with sample_count := dacSamplePerBit c }
  else
    dds_out s

/-- State component of a DAC ISR invocation. -/
def dacStep (c : AfskCfg) (s : TxState) : TxState := (dac_tick c s).1

/-- The `afsk_txStart` function. -/
def afsk_txStart (c : AfskCfg) (s : TxState) : TxState :=
  let s :=
    if s.sending = false then
      { s with phase_inc := markInc c, phase_acc := 0, stuff_cnt := 0,
               sending := true,
               preamble_len := div_round (c.preambleMs * 1200) 8000 % 65536,
               dacIrq := true }
    else s
  { s with trailer_len := div_round (c.trailerMs * 1200) 8000 % 65536 }

/-- Initial transmit state: C static initialization zeroes everything
except `phase_inc`, which is initialized to `MARK_INC`; the TX FIFO is
empty with capacity `CONFIG_AFSK_TX_BUFLEN`. -/
def txInit (c : AfskCfg) (cap : Nat) : TxState :=
  { sample_count := 0, curr_out := 0, tx_bit := 0, bit_stuff := false,
    stuff_cnt := 0, phase_acc := 0, phase_inc := markInc c,
    tx_fifo := { items := [], cap := cap }, preamble_len := 0,
    trailer_len := 0, sending := false, dacIrq := false }

/-- Transmit states reachable from the initial state through the
operations that touch TX state: `afsk_txStart` (called by `afsk_write`),
DAC ISR invocations (which only fire while the DAC interrupt is
enabled), and guarded TX-FIFO pushes from `afsk_write`. -/
inductive TxReach (c : AfskCfg) (cap : Nat) : TxState → Prop
  | init : TxReach c cap (txInit c cap)
  | start {s} : TxReach c cap s → TxReach c cap (afsk_txStart c s)
  | tick {s} : TxReach c cap s → s.dacIrq = true → TxReach c cap (dacStep c s)
  | write {s} (b : Nat) : TxReach c cap s → s.tx_fifo.isFull = false →
      TxReach c cap { s with tx_fifo := s.tx_fifo.push b }

/-- Filter selection (`CONFIG_AFSK_FILTER`). -/
inductive AfskFilter
  | butterworth
  | chebyshev
deriving DecidableEq, Repr

/-- Arithmetic shift right, the meaning of C's `>>` on signed values here
(two's-complement arithmetic shift, i.e. floor division by a power of two). -/
def asr (x : Int) (n : Nat) : Int := Int.fdiv x (2 ^ n)

/-- Receive-side state of the ADC ISR: delay line, IIR taps, bit-sync
shift registers, current phase and the HDLC deframer state. -/
structure AdcState where
  iir_x0 : Int
  iir_x1 : Int
  iir_y0 : Int
  iir_y1 : Int
  sampled_bits : Nat
  found_bits : Nat
  curr_phase : Int
  delay_fifo : List Int
  hdlc : HdlcState
deriving DecidableEq, Repr

/-- The `EDGE_FOUND`/`BIT_DIFFER` macros. -/
def edge_found (b : Nat) : Bool := (b ^^^ (b >>> 1)) &&& 1 = 1

/-- Front end of the ADC ISR: discriminator, IIR lowpass, sampled-bit
shift register, delay-line update and the PLL phase adjustment, up to and
including `curr_phase += PHASE_BIT`. -/
def adc_front (f : AfskFilter) (s : AdcState) (samp : Int) : AdcState :=
  let d := s.delay_fifo.headD 0
  let x0 := s.iir_x1
  let x1 := asr (d * samp) 2
  let y0 := s.iir_y1
  let y1 :=
    match f with
    | .butterworth => x0 + x1 + asr y0 1 + asr y0 3 + asr y0 5
    | .chebyshev => x0 + x1 + asr y0 1
  let sampled := s.sampled_bits * 2 % 256 ||| (if 0 < y1 then 1 else 0)
  let cp :=
    if edge_found sampled = true then
      if s.curr_phase < 32 then s.curr_phase + 1 else s.curr_phase - 1
    else s.curr_phase
  { s with iir_x0 := x0, iir_x1 := x1, iir_y0 := y0, iir_y1 := y1,
           sampled_bits := sampled,
           delay_fifo := s.delay_fifo.tail ++ [samp],
           curr_phase := cp + 8 }

/-- One invocation of the ADC ISR (`DEFINE_AFSK_ADC_ISR`): front end, then
when the phase reaches `PHASE_MAX`, majority bit decision and delivery of
the NRZI-decoded bit to `hdlc_parse`. -/
def adc_tick (f : AfskFilter) (s : AdcState) (samp : Int) : AdcState :=
  let s1 := adc_front f s samp
  if 64 ≤ s1.curr_phase then
    let fb0 := s1.found_bits * 2 % 256
    let bits := s1.sampled_bits &&& 0x07
    let fb := if bits = 0x07 ∨ bits = 0x06 ∨ bits = 0x05 ∨ bits = 0x03
              then fb0 ||| 1 else fb0
    let s2 := { s1 with curr_phase := s1.curr_phase % 64, found_bits := fb }
    { s2 with hdlc := hdlc_parse s2.hdlc (!(edge_found fb)) }
  else s1

/-- Initial receive state: globals zeroed by C static initialization; the
delay FIFO is pre-filled with `SAMPLEPERBIT / 2 = 4` zeros by `afsk_init`;
the RX FIFO is empty with capacity `CONFIG_AFSK_RX_BUFLEN`. -/
def adcInit (capRx : Nat) : AdcState :=
  { iir_x0 := 0, iir_x1 := 0, iir_y0 := 0, iir_y1 := 0,
    sampled_bits := 0, found_bits := 0, curr_phase := 0,
    delay_fifo := [0, 0, 0, 0],
    hdlc := { demod_bits := 0, rxstart := false, currchar := 0, bit_idx := 0,
              rx_fifo := { items := [], cap := capRx } } }

/-- Receive states reachable through ADC ISR invocations from the initial
state. -/
inductive AdcReach (f : AfskFilter) (capRx : Nat) : AdcState → Prop
  | init : AdcReach f capRx (adcInit capRx)
  | tick {s} (samp : Int) : AdcReach f capRx s → AdcReach f capRx (adc_tick f s samp)

/-- Environment observed by `afsk_read`: the RX-FIFO emptiness test, the
byte a pop would return, and `timer_clock()`, each as a function of a
step counter that advances by one at every FIFO check. -/
structure RxEnv where
  rxEmpty : Nat → Bool
  rxByte : Nat → Nat
  clock : Nat → Nat

/-- The inner wait of `afsk_read` exactly as written in the source:
`while (fifo_isempty_locked(&rx_fifo));` — a loop whose body is the empty
statement (note the semicolon), so it spins on the emptiness test alone.
Fuel-indexed; `some t` is the step at which the FIFO was first seen
non-empty, `none` means the loop had not terminated after `fuel` checks. -/
def read_wait (env : RxEnv) : Nat → Nat → Option Nat
  | 0, _ => none
  | fuel + 1, t => if env.rxEmpty t = true then read_wait env fuel (t + 1) else some t

/-- The per-byte loop of `afsk_read` for a configuration with
`CONFIG_AFSK_RXTIMEOUT > 0` (so the outer loop is `while (size--)`), as
written in the source: record `start = timer_clock()`, run the inner
spin loop, then execute the stray block once — `cpu_relax()` and the
timeout test (returning the bytes read so far on expiry) — and otherwise
pop one byte and continue. `none` means a spin loop never terminated. -/
def afsk_read_go (env : RxEnv) (timeout fuel : Nat) :
    Nat → Nat → List Nat → Option (List Nat)
  | 0, _, acc => some acc
  | size + 1, t, acc =>
    let start := env.clock t
    match read_wait env fuel t with
    | none => none
    | some t1 =>
      if timeout < env.clock t1 - start then some acc
      else afsk_read_go env timeout fuel size (t1 + 1) (acc ++ [env.rxByte t1])

/-- Environment in which the RX FIFO stays empty forever while the wall
clock advances one tick per FIFO check. -/
def emptyEnv : RxEnv :=
  { rxEmpty := fun _ => true, rxByte := fun _ => 0, clock := fun t => t }

/-- Bit-boundary event classifier: the DAC ISR takes the preamble branch
(emitting an `HDLC_FLAG` and decrementing `preamble_len`) exactly on the
ticks satisfying this predicate. -/
def takesPreambleFlag (s : TxState) : Bool :=
  s.sample_count == 0 && s.tx_bit == 0 &&
    !(s.tx_fifo.isEmpty && s.trailer_len == 0) && s.preamble_len != 0

/-- Bit-boundary event classifier: the DAC ISR fetches a payload byte from
the TX FIFO exactly on the ticks satisfying this predicate. -/
def fetchesPayload (s : TxState) : Bool :=
  s.sample_count == 0 && s.tx_bit == 0 && s.preamble_len == 0 && !s.tx_fifo.isEmpty

set_option maxRecDepth 8000

@[simp] lemma dac_emit_bit_curr_out (c : AfskCfg) (s : TxState) :
    (dac_emit_bit c s).curr_out = s.curr_out := by
  unfold dac_emit_bit; split_ifs <;> rfl

@[simp] lemma dac_emit_bit_preamble_len (c : AfskCfg) (s : TxState) :
    (dac_emit_bit c s).preamble_len = s.preamble_len := by
  unfold dac_emit_bit; split_ifs <;> rfl

@[simp] lemma dac_emit_bit_trailer_len (c : AfskCfg) (s : TxState) :
    (dac_emit_bit c s).trailer_len = s.trailer_len := by
  unfold dac_emit_bit; split_ifs <;> rfl

@[simp] lemma dac_emit_bit_sending (c : AfskCfg) (s : TxState) :
    (dac_emit_bit c s).sending = s.sending := by
  unfold dac_emit_bit; split_ifs <;> rfl

@[simp] lemma dac_emit_bit_dacIrq (c : AfskCfg) (s : TxState) :
    (dac_emit_bit c s).dacIrq = s.dacIrq := by
  unfold dac_emit_bit; split_ifs <;> rfl

@[simp] lemma dac_emit_bit_tx_fifo (c : AfskCfg) (s : TxState) :
    (dac_emit_bit c s).tx_fifo = s.tx_fifo := by
  unfold dac_emit_bit; split_ifs <;> rfl

@[simp] lemma dac_emit_bit_sample_count (c : AfskCfg) (s : TxState) :
    (dac_emit_bit c s).sample_count = s.sample_count := by
  unfold dac_emit_bit; split_ifs <;> rfl

@[simp] lemma dac_emit_bit_phase_acc (c : AfskCfg) (s : TxState) :
    (dac_emit_bit c s).phase_acc = s.phase_acc := by
  unfold dac_emit_bit; split_ifs <;> rfl

@[simp] lemma dds_out_fst_curr_out (s : TxState) : (dds_out s).1.curr_out = s.curr_out := rfl

@[simp] lemma dds_out_fst_sending (s : TxState) : (dds_out s).1.sending = s.sending := rfl

@[simp] lemma dds_out_fst_dacIrq (s : TxState) : (dds_out s).1.dacIrq = s.dacIrq := rfl

@[simp] lemma dds_out_fst_tx_bit (s : TxState) : (dds_out s).1.tx_bit = s.tx_bit := rfl

@[simp] lemma dds_out_fst_tx_fifo (s : TxState) : (dds_out s).1.tx_fifo = s.tx_fifo := rfl

@[simp] lemma dds_out_fst_preamble_len (s : TxState) :
    (dds_out s).1.preamble_len = s.preamble_len := rfl

@[simp] lemma dds_out_fst_trailer_len (s : TxState) :
    (dds_out s).1.trailer_len = s.trailer_len := rfl

@[simp] lemma dds_out_fst_phase_acc (s : TxState) :
    (dds_out s).1.phase_acc = (s.phase_acc + s.phase_inc) % 65536 % 512 := rfl

@[simp] lemma txStop_sending (s : TxState) : (txStop s).sending = false := rfl

@[simp] lemma txStop_dacIrq (s : TxState) : (txStop s).dacIrq = false := rfl

@[simp] lemma txStop_tx_bit (s : TxState) : (txStop s).tx_bit = s.tx_bit := rfl

@[simp] lemma txStop_sample_count (s : TxState) : (txStop s).sample_count = s.sample_count := rfl

@[simp] lemma txStop_phase_acc (s : TxState) : (txStop s).phase_acc = s.phase_acc := rfl

@[simp] lemma txStop_preamble_len (s : TxState) : (txStop s).preamble_len = s.preamble_len := rfl

/-- C7: for every `idx` in `0..SIN_LEN` (512), `sin_sample(idx) +
sin_sample((idx + SIN_LEN/2) mod SIN_LEN) = 255`, and for every
`idx < SIN_LEN/2`, `sin_sample(idx) = sin_sample(SIN_LEN/2 - 1 - idx)`. -/
theorem sin_sample_symmetries :
    (∀ idx < 512,
      (sin_sample idx).getD 0 + (sin_sample ((idx + 256) % 512)).getD 0 = 255) ∧
    (∀ idx < 256, (sin_sample idx).getD 0 = (sin_sample (255 - idx)).getD 0) := by
  constructor <;> decide

/-- Witness for C7 at `idx = 3`. -/
theorem sin_sample_symmetries_w :
    (sin_sample 3).getD 0 + (sin_sample ((3 + 256) % 512)).getD 0 = 255 :=
  sin_sample_symmetries.1 3 (by norm_num)

/-- C10: every sample the DAC ISR emits comes from `sin_sample` at an
index already reduced modulo `SIN_LEN`, so the `ASSERT(idx < SIN_LEN)`
never fires (the tick never produces `some none`), and the folded table
index stays inside the 128-entry quarter-wave table. -/
theorem dac_sin_sample_assert_ok :
    (∀ (c : AfskCfg) (s : TxState), (dac_tick c s).2 ≠ some none) ∧
    (∀ idx : Nat, sin_new_idx idx < 128) := by
  constructor
  · intro c s
    have h : ∀ a b : Nat, sin_sample ((a + b) % 65536 % 512) ≠ none := by
      intro a b
      have hlt : (a + b) % 65536 % 512 < 512 := Nat.mod_lt _ (by norm_num)
      simp [sin_sample, hlt]
    unfold dac_tick
    split
    · split
      · simp
      · simp [dds_out, h]
    · simp [dds_out, h]
  · intro idx
    have : idx % 256 < 256 := Nat.mod_lt _ (by norm_num)
    simp only [sin_new_idx]
    split <;> omega

/-- C4: at a bit boundary of the DAC ISR, if bit stuffing is enabled and
five ones have accumulated, a stuffed zero is emitted (counter reset,
tone toggled, `tx_bit` not advanced); otherwise the data bit
`curr_out & tx_bit` is emitted (a one keeps the tone and bumps the
counter, a zero toggles the tone and resets the counter, and `tx_bit`
advances); and at a boundary with `tx_bit != 0` the ISR performs exactly
this step before reloading `sample_count` and producing the DDS sample. -/
theorem dac_bit_boundary :
    ∀ (c : AfskCfg) (s : TxState),
      ((s.bit_stuff = true ∧ 5 ≤ s.stuff_cnt) →
        dac_emit_bit c s =
          { s with stuff_cnt := 0, phase_inc := switch_tone c s.phase_inc }) ∧
      (¬(s.bit_stuff = true ∧ 5 ≤ s.stuff_cnt) →
        (s.curr_out &&& s.tx_bit ≠ 0 →
          dac_emit_bit c s =
            { s with stuff_cnt := (s.stuff_cnt + 1) % 256,
                     tx_bit := s.tx_bit * 2 % 256 }) ∧
        (s.curr_out &&& s.tx_bit = 0 →
          dac_emit_bit c s =
            { s with stuff_cnt := 0, phase_inc := switch_tone c s.phase_inc,
                     tx_bit := s.tx_bit * 2 % 256 })) ∧
      (s.sample_count = 0 → s.tx_bit ≠ 0 →
        dac_tick c s =
          dds_out { dac_emit_bit c s with sample_count := dacSamplePerBit c }) := by
  intro c s
  refine ⟨?_, ?_, ?_⟩
  · intro h
    simp [dac_emit_bit, h]
  · intro h
    constructor <;> intro h2 <;> simp [dac_emit_bit, h, h2]
  · intro h1 h2
    simp [dac_tick, h1, h2]

/-- Witness for C4: a stuffed zero is emitted after five ones. -/
theorem dac_bit_boundary_w :
    dac_emit_bit ⟨9600, 0, 0⟩
        ⟨0, 255, 1, true, 5, 0, 0, ⟨[], 16⟩, 0, 0, true, true⟩ =
      { (⟨0, 255, 1, true, 5, 0, 0, ⟨[], 16⟩, 0, 0, true, true⟩ : TxState) with
          stuff_cnt := 0, phase_inc := switch_tone ⟨9600, 0, 0⟩ 0 } :=
  (dac_bit_boundary ⟨9600, 0, 0⟩ _).1 ⟨rfl, by norm_num⟩

/-- C1: as written (stray semicolon after `while (fifo_isempty_locked(&rx_fifo))`),
the per-byte wait of `afsk_read` never consults the timeout: in an
environment whose RX FIFO stays empty while the wall clock keeps
advancing, a read of any positive size never returns, for every amount
of fuel, every configured timeout and every starting time. -/
theorem afsk_read_timeout_never_fires :
    ∀ (timeout fuel size t : Nat) (acc : List Nat),
      afsk_read_go emptyEnv timeout fuel (size + 1) t acc = none := by
  have hwait : ∀ fuel t, read_wait emptyEnv fuel t = none := by
    intro fuel
    induction fuel with
    | zero => intro t; rfl
    | succ n ih => intro t; simpa [read_wait, emptyEnv] using ih (t + 1)
  intro timeout fuel size t acc
  simp [afsk_read_go, hwait]

/-- C3: when the DAC ISR fetches a new byte (`sample_count = 0`,
`tx_bit = 0`) and the byte obtained is `AX25_ESC` with the TX FIFO then
empty, the ISR aborts the transmission: DAC interrupt disabled, `sending`
cleared, no sample emitted; when the FIFO is non-empty, the next FIFO
byte replaces `curr_out` as the literal to transmit and a sample is
emitted. -/
theorem dac_escape_underrun :
    ∀ (c : AfskCfg) (s : TxState) (rest : List Nat),
      s.sample_count = 0 → s.tx_bit = 0 → s.preamble_len = 0 →
      s.tx_fifo.items = AX25_ESC :: rest →
      (rest = [] →
        (dac_tick c s).2 = none ∧ (dac_tick c s).1.sending = false ∧
        (dac_tick c s).1.dacIrq = false) ∧
      (∀ b l, rest = b :: l →
        (dac_tick c s).1.curr_out = b ∧ (dac_tick c s).2 ≠ none) := by
  intro c s rest h1 h2 h3 hf
  have hne : s.tx_fifo.isEmpty = false := by simp [Fifo.isEmpty, hf]
  rcases rest with _ | ⟨b, l⟩
  · refine ⟨fun _ => ?_, fun b l hbl => by simp at hbl⟩
    simp [dac_tick, dac_fetch, dac_escape, h1, h2, h3, hf, hne, Fifo.isEmpty, Fifo.pop]
  · refine ⟨fun hbl => by simp at hbl, fun b' l' hbl => ?_⟩
    injection hbl with hb hl
    subst hb; subst hl
    simp [dac_tick, dac_fetch, dac_escape, h1, h2, h3, hf, hne, Fifo.isEmpty, Fifo.pop,
      dds_out]

/-- Witness for C3: escape underrun aborts the transmission. -/
theorem dac_escape_underrun_w :
    (dac_tick ⟨9600, 0, 0⟩
        ⟨0, 0, 0, false, 0, 0, 512, ⟨[AX25_ESC], 8⟩, 0, 5, true, true⟩).2 = none ∧
    (dac_tick ⟨9600, 0, 0⟩
        ⟨0, 0, 0, false, 0, 0, 512, ⟨[AX25_ESC], 8⟩, 0, 5, true, true⟩).1.sending = false ∧
    (dac_tick ⟨9600, 0, 0⟩
        ⟨0, 0, 0, false, 0, 0, 512, ⟨[AX25_ESC], 8⟩, 0, 5, true, true⟩).1.dacIrq = false :=
  (dac_escape_underrun ⟨9600, 0, 0⟩ _ [] rfl rfl rfl rfl).1 rfl

/-- C5: when `hdlc_rxstart` is true and the 8th bit of a byte is accepted
(the incoming bit is neither part of a flag, a reset pattern, nor a
stuffed zero), an assembled byte equal to `HDLC_FLAG`, `HDLC_RESET` or
`AX25_ESC` causes `AX25_ESC` to be pushed into the RX FIFO before the
byte; each of the two pushes is skipped (and `hdlc_rxstart` is torn down)
when the RX FIFO is full; and the byte accumulator and bit index are
reset afterwards in every case. -/
theorem hdlc_byte_complete_escape :
    ∀ (s : HdlcState) (bit : Bool), s.rxstart = true →
      let d := s.demod_bits * 2 % 256 ||| (if bit then 1 else 0)
      let c := if d &&& 1 = 1 then s.currchar ||| 0x80 else s.currchar
      let esc := c = HDLC_FLAG ∨ c = HDLC_RESET ∨ c = AX25_ESC
      let f1 := if esc ∧ s.rx_fifo.isFull = false then s.rx_fifo.push AX25_ESC
                else s.rx_fifo
      d ≠ HDLC_FLAG → d &&& HDLC_RESET ≠ HDLC_RESET → d &&& 0x3F ≠ 0x3E →
      8 ≤ (s.bit_idx + 1) % 256 →
        (hdlc_parse s bit).currchar = 0 ∧
        (hdlc_parse s bit).bit_idx = 0 ∧
        (hdlc_parse s bit).rx_fifo.items =
          s.rx_fifo.items ++ (if esc ∧ s.rx_fifo.isFull = false then [AX25_ESC] else [])
            ++ (if f1.isFull = false then [c] else []) ∧
        ((hdlc_parse s bit).rxstart = true ↔
          (esc → s.rx_fifo.isFull = false) ∧ f1.isFull = false) := by
  intro s bit h1
  dsimp only
  intro h2 h3 h4 h5
  unfold hdlc_parse
  rw [if_neg h2, if_neg h3]
  simp only [h1]
  rw [if_neg (by simp)]
  rw [if_neg h4, if_pos h5]
  split_ifs <;> simp_all [Fifo.push]

/-- Witness for C5: assembled byte `AX25_ESC` gets escape-prefixed. -/
theorem hdlc_byte_complete_escape_w :
    (hdlc_parse ⟨1, true, AX25_ESC, 7, ⟨[], 4⟩⟩ false).currchar = 0 ∧
    (hdlc_parse ⟨1, true, AX25_ESC, 7, ⟨[], 4⟩⟩ false).bit_idx = 0 ∧
    (hdlc_parse ⟨1, true, AX25_ESC, 7, ⟨[], 4⟩⟩ false).rx_fifo.items =
      ([] : List Nat) ++ (if (AX25_ESC = HDLC_FLAG ∨ AX25_ESC = HDLC_RESET ∨ AX25_ESC = AX25_ESC) ∧
          (⟨[], 4⟩ : Fifo).isFull = false then [AX25_ESC] else [])
        ++ (if ((if (AX25_ESC = HDLC_FLAG ∨ AX25_ESC = HDLC_RESET ∨ AX25_ESC = AX25_ESC) ∧
            (⟨[], 4⟩ : Fifo).isFull = false then (⟨[], 4⟩ : Fifo).push AX25_ESC
            else ⟨[], 4⟩)).isFull = false then [AX25_ESC] else []) ∧
    ((hdlc_parse ⟨1, true, AX25_ESC, 7, ⟨[], 4⟩⟩ false).rxstart = true ↔
      ((AX25_ESC = HDLC_FLAG ∨ AX25_ESC = HDLC_RESET ∨ AX25_ESC = AX25_ESC) →
        (⟨[], 4⟩ : Fifo).isFull = false) ∧
      ((if (AX25_ESC = HDLC_FLAG ∨ AX25_ESC = HDLC_RESET ∨ AX25_ESC = AX25_ESC) ∧
          (⟨[], 4⟩ : Fifo).isFull = false then (⟨[], 4⟩ : Fifo).push AX25_ESC
          else ⟨[], 4⟩)).isFull = false) :=
  hdlc_byte_complete_escape ⟨1, true, AX25_ESC, 7, ⟨[], 4⟩⟩ false rfl
    (by decide) (by decide) (by decide) (by decide)

lemma majority3 (x : Nat) :
    (x &&& 0x07 = 0x07 ∨ x &&& 0x07 = 0x06 ∨ x &&& 0x07 = 0x05 ∨ x &&& 0x07 = 0x03) ↔
      2 ≤ (x &&& 1) + (x >>> 1 &&& 1) + (x >>> 2 &&& 1) := by
  have h7 : x &&& 0x07 = x % 8 := by
    have h := Nat.and_pow_two_sub_one_eq_mod x 3
    norm_num at h
    exact h
  have h1 : x &&& 1 = x % 2 := Nat.and_one_is_mod x
  have hs1 : x >>> 1 = x / 2 := by rw [Nat.shiftRight_eq_div_pow]
  have hs2 : x >>> 2 = x / 4 := by rw [Nat.shiftRight_eq_div_pow]
  rw [h7, h1, hs1, hs2, Nat.and_one_is_mod, Nat.and_one_is_mod]
  omega

lemma nrzi_decode (fb : Nat) :
    (!(edge_found fb)) = decide (fb &&& 1 = fb >>> 1 &&& 1) := by
  have hu : fb &&& 1 ≤ 1 := Nat.and_le_right
  have hv : fb >>> 1 &&& 1 ≤ 1 := Nat.and_le_right
  simp only [edge_found, Nat.and_xor_distrib_right]
  generalize fb &&& 1 = u at hu ⊢
  generalize fb >>> 1 &&& 1 = v at hv ⊢
  interval_cases u <;> interval_cases v <;> decide

/-- C6: on every ADC ISR invocation where `curr_phase` reaches
`PHASE_MAX` (64) after the front end, the phase is reduced modulo 64, one
bit decided by majority of the three least-significant entries of
`sampled_bits` is shifted into `found_bits`, and exactly one
NRZI-decoded bit — `1` iff the two most recent entries of `found_bits`
are equal — is delivered to the HDLC deframer; invocations that stay
below the threshold deliver no bit. -/
theorem adc_bit_decision :
    ∀ (f : AfskFilter) (s : AdcState) (samp : Int),
      let s1 := adc_front f s samp
      let fb := s1.found_bits * 2 % 256 |||
        (if 2 ≤ (s1.sampled_bits &&& 1) + (s1.sampled_bits >>> 1 &&& 1) +
            (s1.sampled_bits >>> 2 &&& 1) then 1 else 0)
      (64 ≤ s1.curr_phase →
        adc_tick f s samp =
          { s1 with curr_phase := s1.curr_phase % 64, found_bits := fb,
                    hdlc := hdlc_parse s1.hdlc (decide (fb &&& 1 = fb >>> 1 &&& 1)) }) ∧
      (s1.curr_phase < 64 → adc_tick f s samp = s1) := by
  intro f s samp
  dsimp only
  constructor
  · intro h
    unfold adc_tick
    rw [if_pos h]
    have hmaj := majority3 (adc_front f s samp).sampled_bits
    have hfb :
        (if (adc_front f s samp).sampled_bits &&& 0x07 = 0x07 ∨
            (adc_front f s samp).sampled_bits &&& 0x07 = 0x06 ∨
            (adc_front f s samp).sampled_bits &&& 0x07 = 0x05 ∨
            (adc_front f s samp).sampled_bits &&& 0x07 = 0x03
         then (adc_front f s samp).found_bits * 2 % 256 ||| 1
         else (adc_front f s samp).found_bits * 2 % 256) =
        (adc_front f s samp).found_bits * 2 % 256 |||
          (if 2 ≤ ((adc_front f s samp).sampled_bits &&& 1) +
              ((adc_front f s samp).sampled_bits >>> 1 &&& 1) +
              ((adc_front f s samp).sampled_bits >>> 2 &&& 1) then 1 else 0) := by
      by_cases hc : 2 ≤ ((adc_front f s samp).sampled_bits &&& 1) +
          ((adc_front f s samp).sampled_bits >>> 1 &&& 1) +
          ((adc_front f s samp).sampled_bits >>> 2 &&& 1)
      · rw [if_pos (hmaj.mpr hc), if_pos hc]
      · rw [if_neg fun hx => hc (hmaj.mp hx), if_neg hc]
        simp
    dsimp only
    rw [hfb, nrzi_decode]
  · intro h
    unfold adc_tick
    rw [if_neg (not_le.mpr h)]

/-- Concrete receive state used by the C6 witness. -/
def adcW : AdcState := { adcInit 8 with curr_phase := 60 }

/-- Witness for C6: a tick crossing the phase threshold delivers one bit. -/
theorem adc_bit_decision_w :
    64 ≤ (adc_front AfskFilter.butterworth adcW 0).curr_phase ∧
    adc_tick AfskFilter.butterworth adcW 0 =
      ⟨0, 0, 0, 0, 0, 0, 4, [0, 0, 0, 0], ⟨1, false, 0, 0, ⟨[], 8⟩⟩⟩ := by
  refine ⟨by decide, ?_⟩
  have h := (adc_bit_decision AfskFilter.butterworth adcW 0).1 (by decide)
  rw [h]
  decide

lemma dacStep_preamble (c : AfskCfg) (s : TxState) :
    (dacStep c s).preamble_len =
      if takesPreambleFlag s = true then s.preamble_len - 1 else s.preamble_len := by
  by_cases h1 : s.sample_count = 0
  · by_cases h2 : s.tx_bit = 0
    · by_cases h3 : s.tx_fifo.isEmpty = true ∧ s.trailer_len = 0
      · simp [dacStep, dac_tick, dac_fetch, takesPreambleFlag, h1, h2, h3]
      · by_cases h4 : s.preamble_len = 0
        · have htake : takesPreambleFlag s = false := by
            simp [takesPreambleFlag, h4]
          rw [htake]
          simp only [Bool.false_eq_true, if_false]
          simp [dacStep, dac_tick, dac_fetch, dac_escape, h1, h2, h4, h3]
          split_ifs <;> simp_all
        · have htake : takesPreambleFlag s = true := by
            simp [takesPreambleFlag, h1, h2, h4, Fifo.isEmpty]
            rcases Decidable.em (s.tx_fifo.items = []) with he | he
            · refine Or.inr fun ht => h3 ⟨by simp [Fifo.isEmpty, he], ht⟩
            · exact Or.inl he
          rw [htake]
          simp only [if_true]
          simp [dacStep, dac_tick, dac_fetch, dac_escape, h1, h2, h4, h3, HDLC_FLAG,
            AX25_ESC]
    · simp [dacStep, dac_tick, takesPreambleFlag, h1, h2]
  · simp [dacStep, dac_tick, takesPreambleFlag, h1]

lemma takesPreambleFlag_pre {s : TxState} (h : takesPreambleFlag s = true) :
    s.preamble_len ≠ 0 := by
  simp [takesPreambleFlag] at h
  tauto

lemma fetchesPayload_pre {s : TxState} (h : fetchesPayload s = true) :
    s.preamble_len = 0 := by
  simp [fetchesPayload] at h
  tauto

lemma preamble_trace (c : AfskCfg) (s : TxState) (n : Nat) :
    s.preamble_len =
      ((dacStep c)^[n] s).preamble_len +
        (List.range n).countP (fun i => takesPreambleFlag ((dacStep c)^[i] s)) := by
  induction n with
  | zero => simp
  | succ n ih =>
    have hc : (List.range (n + 1)).countP
          (fun i => takesPreambleFlag ((dacStep c)^[i] s)) =
        (List.range n).countP (fun i => takesPreambleFlag ((dacStep c)^[i] s)) +
          (if takesPreambleFlag ((dacStep c)^[n] s) = true then 1 else 0) := by
      rw [List.range_succ, List.countP_append]
      simp [List.countP_cons]
    rw [Function.iterate_succ_apply', dacStep_preamble, hc]
    by_cases h : takesPreambleFlag ((dacStep c)^[n] s) = true
    · have hne := takesPreambleFlag_pre h
      rw [if_pos h, if_pos h]
      omega
    · rw [if_neg h, if_neg h]
      omega

/-- C2 counterexample: with `CONFIG_AFSK_PREAMBLE_LEN = 10` ms the value
`tx_start` assigns to `preamble_len` is not `floor(10 * 1200 / 8000)`
(the code computes `DIV_ROUND`, which rounds 1.5 up to 2). -/
theorem preamble_len_not_floor :
    (afsk_txStart ⟨9600, 10, 0⟩ (txInit ⟨9600, 10, 0⟩ 16)).preamble_len ≠
      10 * 1200 / 8000 := by
  decide

/-- C2 amended: with preamble length `L` ms, `tx_start` sets
`preamble_len` to `round(L*1200/8000)` (truncated to 16 bits), and the
number of DAC-ISR iterations that set `curr_out = HDLC_FLAG` through the
preamble branch before any iteration that fetches a payload byte from
the TX FIFO equals that same count. -/
theorem preamble_flag_count :
    ∀ (c : AfskCfg) (s0 : TxState), s0.sending = false →
      (afsk_txStart c s0).preamble_len = div_round (c.preambleMs * 1200) 8000 % 65536 ∧
      ∀ k : Nat, fetchesPayload ((dacStep c)^[k] (afsk_txStart c s0)) = true →
        (List.range k).countP
            (fun i => takesPreambleFlag ((dacStep c)^[i] (afsk_txStart c s0))) =
          div_round (c.preambleMs * 1200) 8000 % 65536 := by
  intro c s0 h0
  have h1 : (afsk_txStart c s0).preamble_len =
      div_round (c.preambleMs * 1200) 8000 % 65536 := by
    simp [afsk_txStart, h0]
  refine ⟨h1, fun k hk => ?_⟩
  have htr := preamble_trace c (afsk_txStart c s0) k
  have h2 := fetchesPayload_pre hk
  omega

/-- Configuration used by the C2 witness: DAC rate 1200 (one sample per
bit), 7 ms preamble, no trailer. -/
def c2cfg : AfskCfg := ⟨1200, 7, 0⟩

/-- Start state used by the C2 witness: initial state with one payload
byte queued. -/
def c2s0 : TxState := { txInit c2cfg 16 with tx_fifo := ⟨[0x41], 16⟩ }

/-- Witness for C2: one preamble flag (round(7*1200/8000) = 1) precedes
the payload fetch, which happens at tick 8. -/
theorem preamble_flag_count_w :
    c2s0.sending = false ∧
    fetchesPayload ((dacStep c2cfg)^[8] (afsk_txStart c2cfg c2s0)) = true ∧
    (List.range 8).countP
        (fun i => takesPreambleFlag ((dacStep c2cfg)^[i] (afsk_txStart c2cfg c2s0))) =
      div_round (7 * 1200) 8000 % 65536 :=
  ⟨rfl, by decide, (preamble_flag_count c2cfg c2s0 rfl).2 8 (by decide)⟩

lemma dac_escape_error_fields {s e : TxState} (h : dac_escape s = .error e) :
    e.sending = false ∧ e.dacIrq = false ∧ e.tx_bit = s.tx_bit ∧
    e.sample_count = s.sample_count ∧ e.phase_acc = s.phase_acc ∧
    e.preamble_len = s.preamble_len := by
  unfold dac_escape at h
  split_ifs at h
  cases h
  exact ⟨rfl, rfl, rfl, rfl, rfl, rfl⟩

lemma dac_escape_ok_fields {s e : TxState} (h : dac_escape s = .ok e) :
    e.sending = s.sending ∧ e.dacIrq = s.dacIrq ∧ e.phase_acc = s.phase_acc ∧
    e.sample_count = s.sample_count ∧ e.preamble_len = s.preamble_len := by
  unfold dac_escape at h
  split_ifs at h <;> cases h <;> exact ⟨rfl, rfl, rfl, rfl, rfl⟩

lemma dac_fetch_error_fields {s e : TxState} (h : dac_fetch s = .error e) :
    e.sending = false ∧ e.dacIrq = false ∧ e.tx_bit = s.tx_bit ∧
    e.sample_count = s.sample_count ∧ e.phase_acc = s.phase_acc := by
  unfold dac_fetch at h
  split_ifs at h
  · cases h
    exact ⟨rfl, rfl, rfl, rfl, rfl⟩
  all_goals
    have hf := dac_escape_error_fields h
    exact ⟨hf.1, hf.2.1, hf.2.2.1, hf.2.2.2.1, hf.2.2.2.2.1⟩

lemma dac_fetch_ok_fields {s e : TxState} (h : dac_fetch s = .ok e) :
    e.sending = s.sending ∧ e.dacIrq = s.dacIrq ∧ e.phase_acc = s.phase_acc := by
  unfold dac_fetch at h
  split_ifs at h
  all_goals
    have hf := dac_escape_ok_fields h
    exact ⟨hf.1, hf.2.1, hf.2.2.1⟩

lemma dacStep_phase_acc (c : AfskCfg) (s : TxState) :
    (dacStep c s).phase_acc = s.phase_acc ∨ (dacStep c s).phase_acc < 512 := by
  have hmod : ∀ a b : Nat, (a + b) % 65536 % 512 < 512 :=
    fun a b => Nat.mod_lt _ (by norm_num)
  unfold dacStep dac_tick
  by_cases h1 : s.sample_count = 0
  · rw [if_pos h1]
    by_cases h2 : s.tx_bit = 0
    · rw [if_pos h2]
      rcases hfe : dac_fetch s with e | s1
      · left
        simp [(dac_fetch_error_fields hfe).2.2.2.2]
      · right
        simp [dds_out, hmod]
    · right
      rw [if_neg h2]
      simp [dds_out, hmod]
  · right
    rw [if_neg h1]
    simp [dds_out, hmod]

lemma reach_phase_acc {c : AfskCfg} {cap : Nat} {s : TxState} (h : TxReach c cap s) :
    s.phase_acc < 512 := by
  induction h with
  | init => simp [txInit]
  | start h ih =>
    unfold afsk_txStart
    dsimp only
    split_ifs <;> simp [ih]
  | tick h hirq ih =>
    rcases dacStep_phase_acc c _ with he | hlt
    · rw [he]; exact ih
    · exact hlt
  | write b h hfull ih => simpa using ih

lemma adc_front_phase (f : AfskFilter) (s : AdcState) (samp : Int)
    (h0 : 0 ≤ s.curr_phase) :
    7 ≤ (adc_front f s samp).curr_phase ∧
      (adc_front f s samp).curr_phase ≤ s.curr_phase + 9 := by
  unfold adc_front
  dsimp only
  split_ifs <;> constructor <;> omega

lemma adc_phase_step (f : AfskFilter) (s : AdcState) (samp : Int)
    (h0 : 0 ≤ s.curr_phase) (_h1 : s.curr_phase < 64) :
    0 ≤ (adc_tick f s samp).curr_phase ∧ (adc_tick f s samp).curr_phase < 64 := by
  have hf := adc_front_phase f s samp h0
  unfold adc_tick
  dsimp only
  by_cases hc : 64 ≤ (adc_front f s samp).curr_phase
  · rw [if_pos hc]
    dsimp only
    exact ⟨Int.emod_nonneg _ (by norm_num), Int.emod_lt_of_pos _ (by norm_num)⟩
  · rw [if_neg hc]
    push_neg at hc
    exact ⟨by omega, hc⟩

lemma reach_curr_phase {f : AfskFilter} {capRx : Nat} {s : AdcState}
    (h : AdcReach f capRx s) : 0 ≤ s.curr_phase ∧ s.curr_phase < 64 := by
  induction h with
  | init => refine ⟨?_, ?_⟩ <;> simp [adcInit]
  | tick samp h ih => exact adc_phase_step _ _ _ ih.1 ih.2

/-- C8: in every transmit state reachable from the initial zeroed state
(through `tx_start`, DAC ISR invocations and TX-FIFO writes) the DDS
accumulator satisfies `phase_acc < SIN_LEN` (512), and in every receive
state reachable through ADC ISR invocations the bit-sync phase satisfies
`0 <= curr_phase < PHASE_MAX` (64). -/
theorem phase_invariants :
    (∀ (c : AfskCfg) (cap : Nat) (s : TxState), TxReach c cap s → s.phase_acc < 512) ∧
    (∀ (f : AfskFilter) (capRx : Nat) (s : AdcState), AdcReach f capRx s →
      0 ≤ s.curr_phase ∧ s.curr_phase < 64) :=
  ⟨fun _ _ _ h => reach_phase_acc h, fun _ _ _ h => reach_curr_phase h⟩

/-- Witness for C8 at the two initial states. -/
theorem phase_invariants_w :
    (txInit ⟨9600, 0, 0⟩ 16).phase_acc < 512 ∧
    (0 ≤ (adcInit 8).curr_phase ∧ (adcInit 8).curr_phase < 64) :=
  ⟨phase_invariants.1 ⟨9600, 0, 0⟩ 16 _ TxReach.init,
   phase_invariants.2 AfskFilter.butterworth 8 _ AdcReach.init⟩

lemma dacStep_sending_false {c : AfskCfg} {s : TxState}
    (hs : s.sending = true) (h : (dacStep c s).sending = false) :
    (dacStep c s).dacIrq = false ∧ (dacStep c s).tx_bit = 0 ∧
    (dacStep c s).sample_count = 0 := by
  unfold dacStep dac_tick at h ⊢
  by_cases h1 : s.sample_count = 0
  · rw [if_pos h1] at h ⊢
    by_cases h2 : s.tx_bit = 0
    · rw [if_pos h2] at h ⊢
      rcases hfe : dac_fetch s with e | s1
      · have hfields := dac_fetch_error_fields hfe
        exact ⟨hfields.2.1, by rw [hfields.2.2.1]; exact h2,
          by rw [hfields.2.2.2.1]; exact h1⟩
      · have hok := dac_fetch_ok_fields hfe
        rw [hfe] at h
        dsimp only at h
        simp [hok.1, hs] at h
    · rw [if_neg h2] at h
      simp [hs] at h
  · rw [if_neg h1] at h
    simp [hs] at h

lemma reach_sending_inv {c : AfskCfg} {cap : Nat} {s : TxState} (h : TxReach c cap s) :
    s.sending = false → s.dacIrq = false ∧ s.tx_bit = 0 ∧ s.sample_count = 0 := by
  induction h with
  | init => exact fun _ => ⟨rfl, rfl, rfl⟩
  | start h ih =>
    intro hs
    exfalso
    revert hs
    unfold afsk_txStart
    dsimp only
    split_ifs with hcond <;> simp_all
  | @tick s1 h hirq ih =>
    intro hs
    rcases Bool.eq_false_or_eq_true s1.sending with hsend | hsend
    · have hstop := dacStep_sending_false hsend hs
      exact ⟨hstop.1, hstop.2.1, hstop.2.2⟩
    · exact absurd hirq (by simp [(ih hsend).1])
  | write b h hfull ih =>
    intro hs
    simpa using ih (by simpa using hs)

/-- C9: whenever the `sending` flag is false in a reachable transmit
state — initially, after a normal end of transmission, or after an
escape-underrun abort — the bit-level state satisfies `tx_bit = 0` and
`sample_count = 0`, so a transmission started by `tx_start` begins at a
byte boundary with a freshly fetched first byte. -/
theorem sending_false_byte_boundary :
    ∀ (c : AfskCfg) (cap : Nat) (s : TxState), TxReach c cap s → s.sending = false →
      s.tx_bit = 0 ∧ s.sample_count = 0 :=
  fun _ _ _ h hs => ⟨(reach_sending_inv h hs).2.1, (reach_sending_inv h hs).2.2⟩

/-- Witness for C9 at the initial state. -/
theorem sending_false_byte_boundary_w :
    (txInit ⟨9600, 0, 0⟩ 32).tx_bit = 0 ∧ (txInit ⟨9600, 0, 0⟩ 32).sample_count = 0 :=
  sending_false_byte_boundary ⟨9600, 0, 0⟩ 32 _ TxReach.init rfl

end Afsk
